import Mathlib

/-!
Shallow embedding of the RepuTrade-Method simulation driver (`src/test.py`,
with participant initialisation as in `src/init_users.py`).

The Python program keeps a local dictionary `reputation : user → int`,
initialised uniformly in `[40, 60]`, and runs `ROUND_COUNT` rounds.  In a
round, every user whose reputation is at least `REPUTATION_THRESHOLD` places
one order with a uniformly chosen side; the buy and sell order lists are
shuffled independently, paired positionally up to the shorter length, and
each pair defaults when a fresh uniform draw is below `DEFAULT_PROB`
(the defaulter, chosen by a fair coin, loses 5 points) and otherwise
succeeds (buyer and seller each gain 1 point).  After settlement the round
queries the chaincode for each user's reputation, falling back to the local
value when the call fails.

Randomness is modelled by explicit oracle inputs: a stream of sides, shuffle
seeds, and a stream of (draw, coin) pairs per matched trade; `random.shuffle`
is modelled as a seed-indexed selection permutation.  External chaincode
calls do not feed back into the local state except for the query results,
which are passed in as an oracle `String → Option String` (`none` models a
failing call, `some out` its stdout).  Probabilities and draws are rationals;
Python's `0.05` denotes the probability one-in-twenty and is modelled as the
exact rational `5/100`.
-/

namespace RepuTrade

/-- `USER_COUNT = 100` from `src/test.py`. -/
def USER_COUNT : Nat := 100

/-- `ROUND_COUNT = 4` from `src/test.py`. -/
def ROUND_COUNT : Nat := 4

/-- `DEFAULT_PROB = 0.05` from `src/test.py`, as the exact rational 5/100. -/
def DEFAULT_PROB : ℚ := mkRat 5 100

/-- `REPUTATION_THRESHOLD = 20` from `src/test.py`. -/
def REPUTATION_THRESHOLD : Int := 20

/-- `users = [f"user{uid}" for uid in range(1, USER_COUNT+1)]`. -/
def users : List String := (List.range USER_COUNT).map (fun i => "user" ++ Nat.repr (i + 1))

/-- Order side, `random.choice(["BUY", "SELL"])`. -/
inductive Side where
  | BUY
  | SELL
deriving DecidableEq, Repr

/-- One order record `{"order_id": ..., "user": ..., "type": ...}`. -/
structure Order where
  order_id : String
  user : String
  otype : Side
deriving DecidableEq, Repr

/-- `order_id = f"ORD{rnd}_{user}"`. -/
def ordId (rnd : Nat) (user : String) : String :=
  "ORD" ++ Nat.repr rnd ++ "_" ++ user

/-- Order generation loop (`src/test.py` lines 39–67): each user whose
reputation is at least `REPUTATION_THRESHOLD` places one order whose side is
the next value of the side oracle (`sides k` is the k-th call of
`random.choice`); other users are skipped.  The `CreateOrder` chaincode
invocation has no effect on local state and is therefore not part of the
state transition. -/
def genOrders (rnd : Nat) (rep : String → Int) (sides : Nat → Side) :
    List String → Nat → List Order
  | [], _ => []
  | u :: us, k =>
    if REPUTATION_THRESHOLD ≤ rep u then
      { order_id := ordId rnd u, user := u, otype := sides k } :: genOrders rnd rep sides us (k + 1)
    else
      genOrders rnd rep sides us k

/-- Remove and return the element at index `i` (used to model one selection
step of `random.shuffle`). -/
def pickIdx (i : Nat) : List α → Option (α × List α)
  | [] => none
  | x :: xs =>
    match i with
    | 0 => some (x, xs)
    | j + 1 =>
      match pickIdx j xs with
      | none => none
      | some (y, ys) => some (y, x :: ys)

/-- `random.shuffle` modelled as a seed-indexed selection shuffle: each seed
entry picks (mod the remaining length) which remaining element comes next.
Every permutation of the list is obtained for a suitable seed, and the result
is always a permutation of the input (`shuffleWith_perm`). -/
def shuffleWith : List Nat → List α → List α
  | [], xs => xs
  | k :: ks, xs =>
    match pickIdx (k % xs.length) xs with
    | none => xs
    | some (y, ys) => y :: shuffleWith ks ys

/-- Outcome of one matched trade, as passed to `IssueToken`. -/
inductive Outcome where
  | DEFAULT (defaulter : String)
  | SUCCESS
deriving DecidableEq, Repr

/-- `true` exactly on `DEFAULT` outcomes. -/
def Outcome.isDefault : Outcome → Bool
  | DEFAULT _ => true
  | SUCCESS => false

/-- One settled trade: the matched pair of orders and its outcome. -/
structure Trade where
  buyOrder : Order
  sellOrder : Order
  outcome : Outcome
deriving DecidableEq, Repr

/-- Point update of the reputation dictionary: `reputation[x] += d`. -/
def bump (x : String) (d : Int) (rep : String → Int) : String → Int :=
  fun u => if u = x then rep u + d else rep u

/-- Settlement of one matched pair (`src/test.py` lines 83–140): the trade
defaults iff the uniform draw is below `DEFAULT_PROB`; on default a fair coin
picks the defaulter (`true` = buyer, matching `random.choice([True, False])`)
who loses 5 points; on success buyer and seller each gain 1 point
(`reputation[buyer] += 1; reputation[seller] += 1`). -/
def settleOne (pr : Order × Order) (draw : ℚ) (coin : Bool) (rep : String → Int) :
    (String → Int) × Outcome :=
  if draw < DEFAULT_PROB then
    let defaulter := if coin then pr.1.user else pr.2.user
    (bump defaulter (-5) rep, Outcome.DEFAULT defaulter)
  else
    (bump pr.2.user 1 (bump pr.1.user 1 rep), Outcome.SUCCESS)

/-- Settle the matched pairs in order; `rand i` supplies the default draw and
the defaulter coin for the i-th pair.  Returns the final reputation
dictionary and the trade log. -/
def settle : List (Order × Order) → (Nat → ℚ × Bool) → (String → Int) →
    (String → Int) × List Trade
  | [], _, rep => (rep, [])
  | pr :: rest, rand, rep =>
    let step := settleOne pr (rand 0).1 (rand 0).2 rep
    let tail := settle rest (fun n => rand (n + 1)) step.1
    (tail.1, ⟨pr.1, pr.2, step.2⟩ :: tail.2)

/-- A recorded reputation value: `int(result.stdout.strip())` when parsing
succeeds, otherwise the raw stripped stdout string. -/
inductive RepValue where
  | num (n : Int)
  | raw (s : String)
deriving DecidableEq, Repr

/-- Reputation recording for one user (`src/test.py` lines 144–159): on a
successful `QueryReputation` call the stripped stdout is parsed as an
integer (falling back to the raw string on a parse error); on a failed call
the locally maintained value is recorded. -/
def recordRep (rep : String → Int) (qres : String → Option String) (u : String) : RepValue :=
  match qres u with
  | some out =>
    match out.trim.toInt? with
    | some v => RepValue.num v
    | none => RepValue.raw out.trim
  | none => RepValue.num (rep u)

/-- Randomness consumed by one round: the side oracle for order generation,
the two shuffle seeds, and the per-trade (draw, coin) stream. -/
structure RoundRand where
  sides : Nat → Side
  buySeed : List Nat
  sellSeed : List Nat
  draws : Nat → ℚ × Bool

/-- Observable result of one round. -/
structure RoundResult where
  orders : List Order
  shuffledBuys : List Order
  shuffledSells : List Order
  matchCount : Nat
  trades : List Trade
  rep : String → Int
  history : List (String × RepValue)

/-- The round's order list (`orders` in `src/test.py`). -/
def ordersOf (rnd : Nat) (us : List String) (rep : String → Int) (r : RoundRand) :
    List Order :=
  genOrders rnd rep r.sides us 0

/-- `buy_orders = [o for o in orders if o["type"] == "BUY"]`. -/
def buysOf (rnd : Nat) (us : List String) (rep : String → Int) (r : RoundRand) :
    List Order :=
  (ordersOf rnd us rep r).filter (fun o => o.otype = Side.BUY)

/-- `sell_orders = [o for o in orders if o["type"] == "SELL"]`. -/
def sellsOf (rnd : Nat) (us : List String) (rep : String → Int) (r : RoundRand) :
    List Order :=
  (ordersOf rnd us rep r).filter (fun o => o.otype = Side.SELL)

/-- The shuffled buy order list (`random.shuffle(buy_orders)`). -/
def shufBuys (rnd : Nat) (us : List String) (rep : String → Int) (r : RoundRand) :
    List Order :=
  shuffleWith r.buySeed (buysOf rnd us rep r)

/-- The shuffled sell order list (`random.shuffle(sell_orders)`). -/
def shufSells (rnd : Nat) (us : List String) (rep : String → Int) (r : RoundRand) :
    List Order :=
  shuffleWith r.sellSeed (sellsOf rnd us rep r)

/-- Positional pairing: `buy_orders[i]` with `sell_orders[i]`, for
`i in range(match_count)` with `match_count = min(len(buy), len(sell))`. -/
def pairsOf (rnd : Nat) (us : List String) (rep : String → Int) (r : RoundRand) :
    List (Order × Order) :=
  (shufBuys rnd us rep r).zip (shufSells rnd us rep r)

/-- One simulation round (`src/test.py` lines 35–170): order generation with
the eligibility check, partition into buy and sell orders, independent
shuffles, positional pairing up to the shorter length
(`match_count = min(len(buy_orders), len(sell_orders))`), settlement, and
the per-user reputation query with local fallback. -/
def runRound (rnd : Nat) (us : List String) (rep : String → Int)
    (r : RoundRand) (qres : String → Option String) : RoundResult :=
  let settled := settle (pairsOf rnd us rep r) r.draws rep
  { orders := ordersOf rnd us rep r
    shuffledBuys := shufBuys rnd us rep r
    shuffledSells := shufSells rnd us rep r
    matchCount := (pairsOf rnd us rep r).length
    trades := settled.2
    rep := settled.1
    history := us.map (fun u => (u, recordRep settled.1 qres u)) }

/-- Number of successful trades of a round (`success_count`). -/
def successCount (res : RoundResult) : Nat :=
  (res.trades.filter (fun t => t.outcome = Outcome.SUCCESS)).length

/-- Number of defaulted trades of a round (`default_count`). -/
def defaultCount (res : RoundResult) : Nat :=
  (res.trades.filter (fun t => t.outcome.isDefault)).length

/-- Mathematical value of the plotted per-round success rate
`success_rate = df_round["success"] / df_round["matched"] * 100`
(`src/test.py` line 195): the division has no zero guard, so when the
matched count is zero the float quotient is not a well-defined number (IEEE
NaN), modelled here as `none`. -/
def successRatePct (res : RoundResult) : Option ℚ :=
  if res.matchCount = 0 then none
  else some ((successCount res : ℚ) / (res.matchCount : ℚ) * 100)

/-- The whole simulation loop: rounds are numbered from 1, each consuming
its own randomness and query oracle; returns the final local reputation
dictionary and the per-round results. -/
def runSim (us : List String) :
    (String → Int) → Nat → List (RoundRand × (String → Option String)) →
    (String → Int) × List RoundResult
  | rep, _, [] => (rep, [])
  | rep, rnd, rq :: rest =>
    let res := runRound rnd us rep rq.1 rq.2
    let tail := runSim us res.rep (rnd + 1) rest
    (tail.1, res :: tail.2)

/-- Initial reputations from `random.randint(40, 60)` (both `src/test.py`
line 24 and `src/init_users.py` line 29): every user starts in `[40, 60]`. -/
def initialRepOK (rep : String → Int) : Prop :=
  ∀ u ∈ users, 40 ≤ rep u ∧ rep u ≤ 60

/-! ### Basic lemmas about order generation, shuffling and pairing -/

/-- The owners of the generated orders are exactly the eligible users, in
their original list order. -/
theorem genOrders_map_user (rnd : Nat) (rep : String → Int) (sides : Nat → Side) :
    ∀ (us : List String) (k : Nat),
      (genOrders rnd rep sides us k).map Order.user
        = us.filter (fun u => decide (REPUTATION_THRESHOLD ≤ rep u)) := by
  intro us
  induction us with
  | nil => intro k; rfl
  | cons u us ih =>
    intro k
    by_cases h : REPUTATION_THRESHOLD ≤ rep u
    · simp [genOrders, h, ih, List.filter_cons]
    · simp [genOrders, h, ih, List.filter_cons]

/-- Every generated order belongs to an eligible user. -/
theorem mem_genOrders_eligible (rnd : Nat) (rep : String → Int) (sides : Nat → Side) :
    ∀ (us : List String) (k : Nat) (o : Order), o ∈ genOrders rnd rep sides us k →
      REPUTATION_THRESHOLD ≤ rep o.user := by
  intro us
  induction us with
  | nil => intro k o h; cases h
  | cons u us ih =>
    intro k o h
    by_cases hu : REPUTATION_THRESHOLD ≤ rep u
    · rw [genOrders, if_pos hu] at h
      rcases List.mem_cons.mp h with h | h
      · subst h; exact hu
      · exact ih _ o h
    · rw [genOrders, if_neg hu] at h
      exact ih _ o h

/-- `pickIdx` returns an element of the list together with the rest. -/
theorem pickIdx_perm : ∀ (xs : List α) (i : Nat) (y : α) (ys : List α),
    pickIdx i xs = some (y, ys) → xs.Perm (y :: ys) := by
  intro xs
  induction xs with
  | nil => intro i y ys h; simp [pickIdx] at h
  | cons x xs ih =>
    intro i y ys h
    cases i with
    | zero =>
      simp only [pickIdx, Option.some.injEq, Prod.mk.injEq] at h
      obtain ⟨rfl, rfl⟩ := h
      exact List.Perm.refl _
    | succ j =>
      simp only [pickIdx] at h
      cases hp : pickIdx j xs with
      | none => rw [hp] at h; cases h
      | some p =>
        obtain ⟨y', ys'⟩ := p
        rw [hp] at h
        simp only [Option.some.injEq, Prod.mk.injEq] at h
        obtain ⟨rfl, rfl⟩ := h
        exact ((ih j _ _ hp).cons x).trans (List.Perm.swap _ x _)

/-- The seed-indexed shuffle always returns a permutation of its input. -/
theorem shuffleWith_perm : ∀ (ks : List Nat) (xs : List α), (shuffleWith ks xs).Perm xs := by
  intro ks
  induction ks with
  | nil => intro xs; exact List.Perm.refl _
  | cons k ks ih =>
    intro xs
    rw [shuffleWith]
    cases hp : pickIdx (k % xs.length) xs with
    | none => exact List.Perm.refl _
    | some p =>
      obtain ⟨y, ys⟩ := p
      exact ((ih ys).cons y).trans (pickIdx_perm xs _ y ys hp).symm

/-- The first components of a zip form a sublist of the first list. -/
theorem zip_map_fst_sublist : ∀ (l₁ : List α) (l₂ : List β),
    ((l₁.zip l₂).map Prod.fst).Sublist l₁ := by
  intro l₁
  induction l₁ with
  | nil => intro l₂; simp
  | cons a l₁ ih =>
    intro l₂
    cases l₂ with
    | nil => simp
    | cons b l₂ =>
      simpa [List.zip_cons_cons] using (ih l₂).cons₂ a

/-- The second components of a zip form a sublist of the second list. -/
theorem zip_map_snd_sublist : ∀ (l₁ : List α) (l₂ : List β),
    ((l₁.zip l₂).map Prod.snd).Sublist l₂ := by
  intro l₁
  induction l₁ with
  | nil => intro l₂; simp
  | cons a l₁ ih =>
    intro l₂
    cases l₂ with
    | nil => simp
    | cons b l₂ =>
      simpa [List.zip_cons_cons] using (ih l₂).cons₂ b

/-! ### Lemmas about settlement -/

/-- `bump` at the updated user. -/
theorem bump_self (x : String) (d : Int) (rep : String → Int) :
    bump x d rep x = rep x + d := by
  simp [bump]

/-- `bump` at any other user. -/
theorem bump_other {u x : String} (h : u ≠ x) (d : Int) (rep : String → Int) :
    bump x d rep u = rep u := by
  simp [bump, h]

/-- Settling one pair leaves every non-party's reputation unchanged. -/
theorem settleOne_frame (pr : Order × Order) (d : ℚ) (c : Bool) (rep : String → Int)
    (u : String) (hb : u ≠ pr.1.user) (hs : u ≠ pr.2.user) :
    (settleOne pr d c rep).1 u = rep u := by
  rw [settleOne]
  by_cases h : d < DEFAULT_PROB
  · rw [if_pos h]
    cases c <;> simp [bump, hb, hs]
  · rw [if_neg h]
    simp [bump, hb, hs]

/-- Settling a list of pairs leaves every non-party's reputation unchanged. -/
theorem settle_frame : ∀ (pairs : List (Order × Order)) (rand : Nat → ℚ × Bool)
    (rep : String → Int) (u : String),
    u ∉ pairs.map (fun pr => pr.1.user) → u ∉ pairs.map (fun pr => pr.2.user) →
    (settle pairs rand rep).1 u = rep u := by
  intro pairs
  induction pairs with
  | nil => intros; rfl
  | cons pr rest ih =>
    intro rand rep u hb hs
    rw [List.map_cons, List.mem_cons, not_or] at hb hs
    rw [settle]
    exact (ih _ _ u hb.2 hs.2).trans (settleOne_frame pr _ _ rep u hb.1 hs.1)

/-- The settled trades consist exactly of the matched pairs, in order. -/
theorem settle_trades_map : ∀ (pairs : List (Order × Order)) (rand : Nat → ℚ × Bool)
    (rep : String → Int),
    ((settle pairs rand rep).2).map (fun t => (t.buyOrder, t.sellOrder)) = pairs := by
  intro pairs
  induction pairs with
  | nil => intros; rfl
  | cons pr rest ih =>
    intro rand rep
    rw [settle]
    simp [ih]

/-- Every settled trade's matched pair is one of the input pairs. -/
theorem mem_settle_pairs (pairs : List (Order × Order)) (rand : Nat → ℚ × Bool)
    (rep : String → Int) (t : Trade) (ht : t ∈ (settle pairs rand rep).2) :
    (t.buyOrder, t.sellOrder) ∈ pairs := by
  rw [← settle_trades_map pairs rand rep]
  exact List.mem_map_of_mem _ ht

/-- The i-th settled trade defaults exactly when the i-th draw is below
`DEFAULT_PROB`. -/
theorem settle_outcomes : ∀ (pairs : List (Order × Order)) (rand : Nat → ℚ × Bool)
    (rep : String → Int),
    ((settle pairs rand rep).2).map (fun t => t.outcome.isDefault)
      = (List.range pairs.length).map (fun i => decide ((rand i).1 < DEFAULT_PROB)) := by
  intro pairs
  induction pairs with
  | nil => intros; rfl
  | cons pr rest ih =>
    intro rand rep
    rw [settle]
    simp only [List.map_cons, List.length_cons, List.range_succ_eq_map, List.map_map]
    congr 1
    · by_cases h : (rand 0).1 < DEFAULT_PROB <;>
        simp [settleOne, h, Outcome.isDefault]
    · rw [ih (fun n => rand (n + 1)) _]
      rfl

/-! ### Distinctness of the trading parties of a round -/

/-- A buyer of some matched pair owns an order of the shuffled buy list. -/
theorem mem_zip_fst_user {sb ss : List Order} {v : String}
    (h : v ∈ (sb.zip ss).map (fun pr => pr.1.user)) : ∃ o ∈ sb, o.user = v := by
  obtain ⟨pr, hpr, hv⟩ := List.mem_map.mp h
  exact ⟨pr.1, (zip_map_fst_sublist sb ss).subset (List.mem_map_of_mem Prod.fst hpr), hv⟩

/-- A seller of some matched pair owns an order of the shuffled sell list. -/
theorem mem_zip_snd_user {sb ss : List Order} {v : String}
    (h : v ∈ (sb.zip ss).map (fun pr => pr.2.user)) : ∃ o ∈ ss, o.user = v := by
  obtain ⟨pr, hpr, hv⟩ := List.mem_map.mp h
  exact ⟨pr.2, (zip_map_snd_sublist sb ss).subset (List.mem_map_of_mem Prod.snd hpr), hv⟩

/-- When the order owners are pairwise distinct, the buyers of the matched
pairs are pairwise distinct. -/
theorem buyers_nodup {orders : List Order} (hnd : (orders.map Order.user).Nodup)
    {sb : List Order} (hperm : sb.Perm (orders.filter (fun o => o.otype = Side.BUY)))
    (ss : List Order) :
    ((sb.zip ss).map (fun pr => pr.1.user)).Nodup := by
  have h1 : ((orders.filter (fun o => o.otype = Side.BUY)).map Order.user).Nodup :=
    hnd.sublist ((List.filter_sublist _).map _)
  have h2 : (sb.map Order.user).Nodup := ((hperm.map Order.user).nodup_iff).mpr h1
  have h3 : (sb.zip ss).map (fun pr => pr.1.user)
      = ((sb.zip ss).map Prod.fst).map Order.user := by
    rw [List.map_map]; rfl
  rw [h3]
  exact h2.sublist ((zip_map_fst_sublist sb ss).map Order.user)

/-- When the order owners are pairwise distinct, the sellers of the matched
pairs are pairwise distinct. -/
theorem sellers_nodup {orders : List Order} (hnd : (orders.map Order.user).Nodup)
    {ss : List Order} (hperm : ss.Perm (orders.filter (fun o => o.otype = Side.SELL)))
    (sb : List Order) :
    ((sb.zip ss).map (fun pr => pr.2.user)).Nodup := by
  have h1 : ((orders.filter (fun o => o.otype = Side.SELL)).map Order.user).Nodup :=
    hnd.sublist ((List.filter_sublist _).map _)
  have h2 : (ss.map Order.user).Nodup := ((hperm.map Order.user).nodup_iff).mpr h1
  have h3 : (sb.zip ss).map (fun pr => pr.2.user)
      = ((sb.zip ss).map Prod.snd).map Order.user := by
    rw [List.map_map]; rfl
  rw [h3]
  exact h2.sublist ((zip_map_snd_sublist sb ss).map Order.user)

/-- When the order owners are pairwise distinct, no user is both a buyer and
a seller among the matched pairs: each user owns at most one order, and that
order has a single side. -/
theorem parties_disjoint {orders : List Order} (hnd : (orders.map Order.user).Nodup)
    {sb ss : List Order}
    (hb : sb.Perm (orders.filter (fun o => o.otype = Side.BUY)))
    (hs : ss.Perm (orders.filter (fun o => o.otype = Side.SELL)))
    (v : String) (hvb : v ∈ (sb.zip ss).map (fun pr => pr.1.user)) :
    v ∉ (sb.zip ss).map (fun pr => pr.2.user) := by
  intro hvs
  obtain ⟨o₁, ho₁, hv₁⟩ := mem_zip_fst_user hvb
  obtain ⟨o₂, ho₂, hv₂⟩ := mem_zip_snd_user hvs
  have h₁ : o₁ ∈ orders.filter (fun o => o.otype = Side.BUY) := hb.mem_iff.mp ho₁
  have h₂ : o₂ ∈ orders.filter (fun o => o.otype = Side.SELL) := hs.mem_iff.mp ho₂
  rw [List.mem_filter, decide_eq_true_eq] at h₁ h₂
  have : o₁ = o₂ :=
    List.inj_on_of_nodup_map hnd h₁.1 h₂.1 (hv₁.trans hv₂.symm)
  rw [this, h₂.2] at h₁
  cases h₁.2

/-! ### Per-round reputation change bounds -/

/-- When buyer and seller differ, settling one pair raises nobody's
reputation by more than 1. -/
theorem settleOne_le (pr : Order × Order) (hne : pr.1.user ≠ pr.2.user)
    (d : ℚ) (c : Bool) (rep : String → Int) (u : String) :
    (settleOne pr d c rep).1 u ≤ rep u + 1 := by
  rw [settleOne]
  by_cases h : d < DEFAULT_PROB
  · rw [if_pos h]
    cases c <;> simp only [bump] <;> split_ifs <;> omega
  · rw [if_neg h]
    simp only [bump]
    split_ifs with h1 h2
    · exact absurd (h2.symm.trans h1) hne
    · omega
    · omega
    · omega

/-- When each user appears at most once among the matched parties, a whole
round of settlement raises nobody's reputation by more than 1. -/
theorem settle_le : ∀ (pairs : List (Order × Order)) (rand : Nat → ℚ × Bool)
    (rep : String → Int) (u : String),
    (pairs.map (fun pr => pr.1.user)).Nodup →
    (pairs.map (fun pr => pr.2.user)).Nodup →
    (∀ v, v ∈ pairs.map (fun pr => pr.1.user) → v ∉ pairs.map (fun pr => pr.2.user)) →
    (settle pairs rand rep).1 u ≤ rep u + 1 := by
  intro pairs
  induction pairs with
  | nil =>
    intro rand rep u _ _ _
    rw [settle]
    show rep u ≤ rep u + 1
    omega
  | cons pr rest ih =>
    intro rand rep u hb hs hd
    rw [List.map_cons, List.nodup_cons] at hb hs
    have hne : pr.1.user ≠ pr.2.user := by
      intro he
      exact hd pr.1.user (by simp) (by simp [he])
    have hd' : ∀ v, v ∈ rest.map (fun pr => pr.1.user) →
        v ∉ rest.map (fun pr => pr.2.user) := by
      intro v hv hv'
      exact hd v (by simp [hv]) (by simp [hv'])
    rw [settle]
    by_cases h1 : u = pr.1.user
    · have hnb : u ∉ rest.map (fun pr => pr.1.user) := h1 ▸ hb.1
      have hns : u ∉ rest.map (fun pr => pr.2.user) := by
        intro hmem
        exact hd u (by simp [h1]) (by simp [hmem])
      rw [settle_frame rest _ _ u hnb hns]
      exact settleOne_le pr hne _ _ rep u
    · by_cases h2 : u = pr.2.user
      · have hns : u ∉ rest.map (fun pr => pr.2.user) := h2 ▸ hs.1
        have hnb : u ∉ rest.map (fun pr => pr.1.user) := by
          intro hmem
          exact hd u (by simp [hmem]) (by simp [h2])
        rw [settle_frame rest _ _ u hnb hns]
        exact settleOne_le pr hne _ _ rep u
      · have hrec := ih (fun n => rand (n + 1))
          (settleOne pr (rand 0).1 (rand 0).2 rep).1 u hb.2 hs.2 hd'
        rw [settleOne_frame pr _ _ rep u h1 h2] at hrec
        exact hrec

/-! ### Round-level lemmas -/

/-- With pairwise-distinct users, the owners of a round's orders are
pairwise distinct. -/
theorem ordersOf_user_nodup (rnd : Nat) (us : List String) (rep : String → Int)
    (r : RoundRand) (h : us.Nodup) : ((ordersOf rnd us rep r).map Order.user).Nodup := by
  rw [ordersOf, genOrders_map_user]
  exact h.filter _

/-- With pairwise-distinct users, a single round raises nobody's reputation
by more than 1: each user owns at most one order and is therefore party to
at most one matched trade. -/
theorem runRound_rep_le (rnd : Nat) (us : List String) (rep : String → Int)
    (r : RoundRand) (qres : String → Option String) (h : us.Nodup) (u : String) :
    (runRound rnd us rep r qres).rep u ≤ rep u + 1 := by
  have hnd := ordersOf_user_nodup rnd us rep r h
  exact settle_le (pairsOf rnd us rep r) r.draws rep u
    (buyers_nodup hnd (shuffleWith_perm _ _) _)
    (sellers_nodup hnd (shuffleWith_perm _ _) _)
    (fun v => parties_disjoint hnd (shuffleWith_perm _ _) (shuffleWith_perm _ _) v)

/-- An ineligible user owns none of the round's orders. -/
theorem runRound_no_order (rnd : Nat) (us : List String) (rep : String → Int)
    (r : RoundRand) (qres : String → Option String) (u : String)
    (h : rep u < REPUTATION_THRESHOLD) :
    u ∉ (runRound rnd us rep r qres).orders.map Order.user := by
  intro hmem
  obtain ⟨o, ho, hv⟩ := List.mem_map.mp hmem
  have := mem_genOrders_eligible rnd rep r.sides us 0 o ho
  rw [hv] at this
  omega

/-- Every matched buyer owns one of the round's orders. -/
theorem buyer_mem_orders {rnd : Nat} {us : List String} {rep : String → Int}
    {r : RoundRand} {v : String}
    (h : v ∈ (pairsOf rnd us rep r).map (fun pr => pr.1.user)) :
    v ∈ (ordersOf rnd us rep r).map Order.user := by
  obtain ⟨o, ho, hv⟩ := mem_zip_fst_user h
  have h1 : o ∈ buysOf rnd us rep r := (shuffleWith_perm _ _).mem_iff.mp ho
  rw [buysOf, List.mem_filter] at h1
  exact hv ▸ List.mem_map_of_mem Order.user h1.1

/-- Every matched seller owns one of the round's orders. -/
theorem seller_mem_orders {rnd : Nat} {us : List String} {rep : String → Int}
    {r : RoundRand} {v : String}
    (h : v ∈ (pairsOf rnd us rep r).map (fun pr => pr.2.user)) :
    v ∈ (ordersOf rnd us rep r).map Order.user := by
  obtain ⟨o, ho, hv⟩ := mem_zip_snd_user h
  have h1 : o ∈ sellsOf rnd us rep r := (shuffleWith_perm _ _).mem_iff.mp ho
  rw [sellsOf, List.mem_filter] at h1
  exact hv ▸ List.mem_map_of_mem Order.user h1.1

/-- An ineligible user's reputation is untouched by the round. -/
theorem runRound_ineligible_frame (rnd : Nat) (us : List String) (rep : String → Int)
    (r : RoundRand) (qres : String → Option String) (u : String)
    (h : rep u < REPUTATION_THRESHOLD) :
    (runRound rnd us rep r qres).rep u = rep u := by
  apply settle_frame (pairsOf rnd us rep r) r.draws rep u
  · intro hmem
    exact runRound_no_order rnd us rep r qres u h (buyer_mem_orders hmem)
  · intro hmem
    exact runRound_no_order rnd us rep r qres u h (seller_mem_orders hmem)

/-- Both parties of every settled trade own one of the round's orders. -/
theorem runRound_trade_parties (rnd : Nat) (us : List String) (rep : String → Int)
    (r : RoundRand) (qres : String → Option String) (t : Trade)
    (ht : t ∈ (runRound rnd us rep r qres).trades) :
    t.buyOrder.user ∈ (ordersOf rnd us rep r).map Order.user ∧
      t.sellOrder.user ∈ (ordersOf rnd us rep r).map Order.user := by
  have hpair := mem_settle_pairs (pairsOf rnd us rep r) r.draws rep t ht
  constructor
  · exact buyer_mem_orders (List.mem_map_of_mem (fun pr => pr.1.user) hpair)
  · exact seller_mem_orders (List.mem_map_of_mem (fun pr => pr.2.user) hpair)

/-- An ineligible user is party to none of the round's trades. -/
theorem runRound_no_trade (rnd : Nat) (us : List String) (rep : String → Int)
    (r : RoundRand) (qres : String → Option String) (u : String)
    (h : rep u < REPUTATION_THRESHOLD) (t : Trade)
    (ht : t ∈ (runRound rnd us rep r qres).trades) :
    t.buyOrder.user ≠ u ∧ t.sellOrder.user ≠ u := by
  obtain ⟨hb, hs⟩ := runRound_trade_parties rnd us rep r qres t ht
  constructor
  · intro he
    exact runRound_no_order rnd us rep r qres u h (he ▸ hb)
  · intro he
    exact runRound_no_order rnd us rep r qres u h (he ▸ hs)

/-! ### Simulation-level lemmas -/

/-- Unfolding of the simulation's final reputation on a cons. -/
theorem runSim_fst_cons (us : List String) (rep : String → Int) (rnd : Nat)
    (rq : RoundRand × (String → Option String))
    (rest : List (RoundRand × (String → Option String))) :
    (runSim us rep rnd (rq :: rest)).1
      = (runSim us (runRound rnd us rep rq.1 rq.2).rep (rnd + 1) rest).1 := rfl

/-- Unfolding of the simulation's round results on a cons. -/
theorem runSim_snd_cons (us : List String) (rep : String → Int) (rnd : Nat)
    (rq : RoundRand × (String → Option String))
    (rest : List (RoundRand × (String → Option String))) :
    (runSim us rep rnd (rq :: rest)).2
      = runRound rnd us rep rq.1 rq.2
          :: (runSim us (runRound rnd us rep rq.1 rq.2).rep (rnd + 1) rest).2 := rfl

/-- With pairwise-distinct users, after any number of rounds a reputation has
grown by at most 1 per round. -/
theorem runSim_rep_le (us : List String) (h : us.Nodup) :
    ∀ (rs : List (RoundRand × (String → Option String)))
      (rep : String → Int) (rnd : Nat) (u : String),
    (runSim us rep rnd rs).1 u ≤ rep u + rs.length := by
  intro rs
  induction rs with
  | nil =>
    intro rep rnd u
    show rep u ≤ rep u + ([] : List (RoundRand × (String → Option String))).length
    simp
  | cons rq rest ih =>
    intro rep rnd u
    rw [runSim_fst_cons]
    have h1 := runRound_rep_le rnd us rep rq.1 rq.2 h u
    have h2 := ih (runRound rnd us rep rq.1 rq.2).rep (rnd + 1) u
    simp only [List.length_cons]
    push_cast at h2 ⊢
    omega

/-- Once a user's reputation is below the threshold, the remaining rounds
leave it unchanged, the user owns no further order and is party to no
further trade. -/
theorem runSim_ineligible_frozen (us : List String) :
    ∀ (rs : List (RoundRand × (String → Option String)))
      (rep : String → Int) (rnd : Nat) (u : String),
    rep u < REPUTATION_THRESHOLD →
    (runSim us rep rnd rs).1 u = rep u ∧
      ∀ res ∈ (runSim us rep rnd rs).2,
        u ∉ res.orders.map Order.user ∧
          ∀ t ∈ res.trades, t.buyOrder.user ≠ u ∧ t.sellOrder.user ≠ u := by
  intro rs
  induction rs with
  | nil =>
    intro rep rnd u _
    exact ⟨rfl, by intro res hres; cases hres⟩
  | cons rq rest ih =>
    intro rep rnd u h
    have hfr := runRound_ineligible_frame rnd us rep rq.1 rq.2 u h
    have h' : (runRound rnd us rep rq.1 rq.2).rep u < REPUTATION_THRESHOLD := by
      rw [hfr]; exact h
    obtain ⟨ih1, ih2⟩ := ih (runRound rnd us rep rq.1 rq.2).rep (rnd + 1) u h'
    refine ⟨(runSim_fst_cons us rep rnd rq rest ▸ ih1).trans hfr, ?_⟩
    intro res hres
    rw [runSim_snd_cons, List.mem_cons] at hres
    rcases hres with hres | hres
    · subst hres
      refine ⟨?_, fun t ht => runRound_no_trade rnd us rep rq.1 rq.2 u h t ht⟩
      intro hmem
      exact runRound_no_order rnd us rep rq.1 rq.2 u h hmem
    · exact ih2 res hres

/-! ### Concrete executions used as explicit inputs -/

/-- Concrete round randomness: the first eligible user draws BUY, all others
draw SELL, both shuffle seeds are empty (identity permutation), and every
trade draw is 1/2 with the defaulter coin on the buyer. -/
def oneBuyRand : RoundRand :=
  { sides := fun k => if k = 0 then Side.BUY else Side.SELL
    buySeed := []
    sellSeed := []
    draws := fun _ => (mkRat 1 2, true) }

/-- Concrete round randomness where every eligible user draws BUY. -/
def allBuyRand : RoundRand :=
  { sides := fun _ => Side.BUY
    buySeed := []
    sellSeed := []
    draws := fun _ => (mkRat 1 2, true) }

/-- A concrete reputation state where `user1` is below the threshold. -/
def lowRep : String → Int := fun v => if v = "user1" then 10 else 50

/-- A concrete buy order. -/
def cOrderB : Order := { order_id := "ORD1_user1", user := "user1", otype := Side.BUY }

/-- A concrete sell order. -/
def cOrderS : Order := { order_id := "ORD1_user2", user := "user2", otype := Side.SELL }

/-- A concrete reputation state. -/
def cRep : String → Int := fun _ => 50

/-- The single trade of the concrete `oneBuyRand` round started from
reputation 60 everywhere. -/
def w9trade : Trade :=
  ((runRound 1 users (fun _ => 60) oneBuyRand (fun _ => none)).trades).headD
    ⟨⟨"", "", Side.BUY⟩, ⟨"", "", Side.BUY⟩, Outcome.SUCCESS⟩

/-! ### The claims -/

/-- C1, corrected: after any number of rounds, a reputation exceeds no
initial upper bound `B` by more than one point per round played — each user
owns at most one order per round, so each round raises a reputation by at
most 1.  In particular a full simulation of `ROUND_COUNT` rounds started
from the configured initial range `[40, 60]` stays at or below
`60 + ROUND_COUNT`.  (The claim's stated bound — the reputation never
exceeds the configured upper bound 60 of the initial range — is false; see
`spec_C1_counterexample`.) -/
theorem spec_C1 (us : List String) (h : us.Nodup) (rep0 : String → Int) (B : Int)
    (hB : ∀ u, rep0 u ≤ B) (rnd : Nat)
    (rs : List (RoundRand × (String → Option String))) (u : String) :
    (runSim us rep0 rnd rs).1 u ≤ B + rs.length := by
  have h1 := runSim_rep_le us h rs rep0 rnd u
  have h2 := hB u
  omega

/-- C1, counterexample to the claim as stated: with every initial reputation
equal to 60 (inside the configured initial range `[40, 60]`), the reachable
four-round execution in which the first eligible user always buys, the
shuffles are identities and no trade defaults leaves `user1` at 64 > 60: the
configured upper bound of the initial range is exceeded. -/
theorem spec_C1_counterexample :
    initialRepOK (fun _ => 60) ∧
    (runSim users (fun _ => 60) 1
        (List.replicate ROUND_COUNT (oneBuyRand, fun _ => none))).1 "user1" = 64 ∧
    ¬ (runSim users (fun _ => 60) 1
        (List.replicate ROUND_COUNT (oneBuyRand, fun _ => none))).1 "user1" ≤ 60 :=
  ⟨fun _ _ => ⟨by norm_num, le_refl _⟩, by decide, by decide⟩

/-- C1 witness: the amended bound applied to the concrete four-round
execution of `spec_C1_counterexample`: 64 ≤ 60 + 4. -/
theorem spec_C1_witness :
    users.Nodup ∧
    (runSim users (fun _ => 60) 1
        (List.replicate ROUND_COUNT (oneBuyRand, fun _ => none))).1 "user1"
      ≤ 60 + (List.replicate ROUND_COUNT
          ((oneBuyRand, fun _ => none) : RoundRand × (String → Option String))).length :=
  ⟨by decide,
    spec_C1 users (by decide) (fun _ => 60) 60 (fun _ => le_refl _) 1
      (List.replicate ROUND_COUNT (oneBuyRand, fun _ => none)) "user1"⟩

/-- C2: a participant whose reputation at the start of a round is below
`REPUTATION_THRESHOLD` owns none of that round's orders. -/
theorem spec_C2 (rnd : Nat) (us : List String) (rep : String → Int) (r : RoundRand)
    (qres : String → Option String) (u : String) (h : rep u < REPUTATION_THRESHOLD) :
    u ∉ (runRound rnd us rep r qres).orders.map Order.user :=
  runRound_no_order rnd us rep r qres u h

/-- C2 witness: `user1` at reputation 10 < 20 owns no order of the concrete
round. -/
theorem spec_C2_witness :
    lowRep "user1" < REPUTATION_THRESHOLD ∧
    "user1" ∉ (runRound 1 users lowRep oneBuyRand (fun _ => none)).orders.map Order.user :=
  ⟨by decide, spec_C2 1 users lowRep oneBuyRand (fun _ => none) "user1" (by decide)⟩

/-- C3: the number of matched trades of a round equals — and in particular
never exceeds — the smaller of the round's buy and sell order counts. -/
theorem spec_C3 (rnd : Nat) (us : List String) (rep : String → Int) (r : RoundRand)
    (qres : String → Option String) :
    (runRound rnd us rep r qres).matchCount
        = min (buysOf rnd us rep r).length (sellsOf rnd us rep r).length ∧
      (runRound rnd us rep r qres).matchCount ≤ (buysOf rnd us rep r).length ∧
      (runRound rnd us rep r qres).matchCount ≤ (sellsOf rnd us rep r).length := by
  have he : (runRound rnd us rep r qres).matchCount
      = min (buysOf rnd us rep r).length (sellsOf rnd us rep r).length := by
    show (pairsOf rnd us rep r).length = _
    rw [pairsOf, List.length_zip, shufBuys, shufSells,
      (shuffleWith_perm r.buySeed _).length_eq,
      (shuffleWith_perm r.sellSeed _).length_eq]
  exact ⟨he, he ▸ Nat.min_le_left _ _, he ▸ Nat.min_le_right _ _⟩

/-- C4: a matched trade that defaults decrements exactly one reputation, by
exactly 5, namely the chosen defaulting party (one of the two parties of the
trade); every other reputation is unchanged by that trade. -/
theorem spec_C4 (pr : Order × Order) (draw : ℚ) (coin : Bool) (rep : String → Int)
    (d : String) (h : (settleOne pr draw coin rep).2 = Outcome.DEFAULT d) :
    (d = pr.1.user ∨ d = pr.2.user) ∧
      (settleOne pr draw coin rep).1 d = rep d - 5 ∧
      ∀ u, u ≠ d → (settleOne pr draw coin rep).1 u = rep u := by
  by_cases hd : draw < DEFAULT_PROB
  · have h2 : (settleOne pr draw coin rep).1
        = bump (if coin then pr.1.user else pr.2.user) (-5) rep := by
      simp [settleOne, hd]
    have h3 : (if coin then pr.1.user else pr.2.user) = d := by
      simpa [settleOne, hd] using h
    subst h3
    rw [h2]
    refine ⟨?_, ?_, ?_⟩
    · cases coin
      · right; simp
      · left; simp
    · rw [bump_self]
      omega
    · intro u hu
      exact bump_other hu _ _
  · simp only [settleOne, if_neg hd] at h
    cases h

/-- C4 witness: a defaulting trade (draw 0 < 5/100, coin on the buyer)
between distinct concrete parties: the buyer loses exactly 5 and a third
party is unchanged. -/
theorem spec_C4_witness :
    (settleOne (cOrderB, cOrderS) 0 true cRep).2 = Outcome.DEFAULT "user1" ∧
    (settleOne (cOrderB, cOrderS) 0 true cRep).1 "user1" = cRep "user1" - 5 ∧
    (settleOne (cOrderB, cOrderS) 0 true cRep).1 "user3" = cRep "user3" :=
  ⟨by decide,
    (spec_C4 (cOrderB, cOrderS) 0 true cRep "user1" (by decide)).2.1,
    (spec_C4 (cOrderB, cOrderS) 0 true cRep "user1" (by decide)).2.2 "user3" (by decide)⟩

/-- C5: a matched trade between distinct parties that succeeds increments
exactly two reputations — the buyer's and the seller's — by exactly 1 each;
every other reputation is unchanged by that trade.  (The parties of a
matched trade are always distinct: `spec_C9`.) -/
theorem spec_C5 (pr : Order × Order) (draw : ℚ) (coin : Bool) (rep : String → Int)
    (hne : pr.1.user ≠ pr.2.user) (h : (settleOne pr draw coin rep).2 = Outcome.SUCCESS) :
    (settleOne pr draw coin rep).1 pr.1.user = rep pr.1.user + 1 ∧
      (settleOne pr draw coin rep).1 pr.2.user = rep pr.2.user + 1 ∧
      ∀ u, u ≠ pr.1.user → u ≠ pr.2.user → (settleOne pr draw coin rep).1 u = rep u := by
  by_cases hd : draw < DEFAULT_PROB
  · simp only [settleOne, if_pos hd] at h
    cases h
  · simp only [settleOne, if_neg hd]
    refine ⟨?_, ?_, ?_⟩
    · simp [bump, hne]
    · simp [bump, Ne.symm hne]
    · intro u hu1 hu2
      simp [bump, hu1, hu2]

/-- C5 witness: a successful trade (draw 1/2 ≥ 5/100) between distinct
concrete parties: buyer and seller each gain exactly 1 and a third party is
unchanged. -/
theorem spec_C5_witness :
    (settleOne (cOrderB, cOrderS) (mkRat 1 2) true cRep).1 "user1" = cRep "user1" + 1 ∧
    (settleOne (cOrderB, cOrderS) (mkRat 1 2) true cRep).1 "user2" = cRep "user2" + 1 ∧
    (settleOne (cOrderB, cOrderS) (mkRat 1 2) true cRep).1 "user3" = cRep "user3" :=
  ⟨(spec_C5 (cOrderB, cOrderS) (mkRat 1 2) true cRep (by decide) (by decide)).1,
    (spec_C5 (cOrderB, cOrderS) (mkRat 1 2) true cRep (by decide) (by decide)).2.1,
    (spec_C5 (cOrderB, cOrderS) (mkRat 1 2) true cRep (by decide) (by decide)).2.2
      "user3" (by decide) (by decide)⟩

/-- C6: the round follows exactly the described matching algorithm: the
shuffled buy (resp. sell) list is a permutation of the eligible orders of
that side, the settled trades are the positional pairs of the two shuffled
lists up to the shorter length, and the i-th trade defaults exactly when the
i-th uniform draw is below `DEFAULT_PROB`. -/
theorem spec_C6 (rnd : Nat) (us : List String) (rep : String → Int) (r : RoundRand)
    (qres : String → Option String) :
    ((runRound rnd us rep r qres).shuffledBuys).Perm
        ((runRound rnd us rep r qres).orders.filter (fun o => o.otype = Side.BUY)) ∧
      ((runRound rnd us rep r qres).shuffledSells).Perm
        ((runRound rnd us rep r qres).orders.filter (fun o => o.otype = Side.SELL)) ∧
      ((runRound rnd us rep r qres).trades).map (fun t => (t.buyOrder, t.sellOrder))
        = ((runRound rnd us rep r qres).shuffledBuys).zip
            ((runRound rnd us rep r qres).shuffledSells) ∧
      ((runRound rnd us rep r qres).trades).map (fun t => t.outcome.isDefault)
        = (List.range (runRound rnd us rep r qres).matchCount).map
            (fun i => decide ((r.draws i).1 < DEFAULT_PROB)) :=
  ⟨shuffleWith_perm _ _, shuffleWith_perm _ _, settle_trades_map _ _ _,
    settle_outcomes (pairsOf rnd us rep r) r.draws rep⟩

/-- C7: chaincode call results never feed back into the local reputation
state (the state is the same under any two query oracles, and the
`CreateOrder` / `IssueToken` results are not inputs of the transition at
all), and when the `QueryReputation` call for a user fails the round records
exactly the locally maintained post-round value for that user. -/
theorem spec_C7 (rnd : Nat) (us : List String) (rep : String → Int) (r : RoundRand)
    (q1 q2 : String → Option String) (u : String) (hu : u ∈ us) (hfail : q1 u = none) :
    (runRound rnd us rep r q1).rep = (runRound rnd us rep r q2).rep ∧
      (u, RepValue.num ((runRound rnd us rep r q1).rep u))
        ∈ (runRound rnd us rep r q1).history := by
  refine ⟨rfl, ?_⟩
  have h2 : recordRep (runRound rnd us rep r q1).rep q1 u
      = RepValue.num ((runRound rnd us rep r q1).rep u) := by
    simp only [recordRep, hfail]
  have h3 : (u, recordRep (runRound rnd us rep r q1).rep q1 u)
      ∈ us.map (fun v => (v, recordRep (runRound rnd us rep r q1).rep q1 v)) :=
    List.mem_map_of_mem _ hu
  rw [h2] at h3
  exact h3

/-- C7 witness: in the concrete round with every query failing, the recorded
value for `user1` is its local post-round reputation. -/
theorem spec_C7_witness :
    "user1" ∈ users ∧
    ("user1", RepValue.num ((runRound 1 users (fun _ => 60) oneBuyRand
        (fun _ => none)).rep "user1"))
      ∈ (runRound 1 users (fun _ => 60) oneBuyRand (fun _ => none)).history :=
  ⟨by decide,
    (spec_C7 1 users (fun _ => 60) oneBuyRand (fun _ => none) (fun _ => none)
      "user1" (by decide) rfl).2⟩

/-- C8: once a user's local reputation is below the eligibility threshold it
never changes again: in every later round the user owns no order, is party
to no trade, and the final reputation equals the value it had when it fell
below the threshold. -/
theorem spec_C8 (us : List String) (rep0 : String → Int) (rnd : Nat)
    (rs : List (RoundRand × (String → Option String))) (u : String)
    (h : rep0 u < REPUTATION_THRESHOLD) :
    (runSim us rep0 rnd rs).1 u = rep0 u ∧
      ∀ res ∈ (runSim us rep0 rnd rs).2,
        u ∉ res.orders.map Order.user ∧
          ∀ t ∈ res.trades, t.buyOrder.user ≠ u ∧ t.sellOrder.user ≠ u :=
  runSim_ineligible_frozen us rs rep0 rnd u h

/-- C8 witness: `user1` starts at 10 < 20 and still has exactly 10 after a
full four-round simulation. -/
theorem spec_C8_witness :
    lowRep "user1" < REPUTATION_THRESHOLD ∧
    (runSim users lowRep 1
        (List.replicate ROUND_COUNT (oneBuyRand, fun _ => none))).1 "user1"
      = lowRep "user1" :=
  ⟨by decide,
    (spec_C8 users lowRep 1 (List.replicate ROUND_COUNT (oneBuyRand, fun _ => none))
      "user1" (by decide)).1⟩

/-- C9: with pairwise-distinct users the two parties of every matched trade
are distinct: each eligible user owns exactly one order with a single side,
so nobody appears on both sides of one trade. -/
theorem spec_C9 (rnd : Nat) (us : List String) (rep : String → Int) (r : RoundRand)
    (qres : String → Option String) (h : us.Nodup) (t : Trade)
    (ht : t ∈ (runRound rnd us rep r qres).trades) :
    t.buyOrder.user ≠ t.sellOrder.user := by
  have hpair := mem_settle_pairs (pairsOf rnd us rep r) r.draws rep t ht
  have hnd := ordersOf_user_nodup rnd us rep r h
  intro he
  refine parties_disjoint hnd (shuffleWith_perm _ _) (shuffleWith_perm _ _)
    t.buyOrder.user (List.mem_map_of_mem (fun pr => pr.1.user) hpair) ?_
  rw [he]
  exact List.mem_map_of_mem (fun pr => pr.2.user) hpair

/-- C9 witness: the single trade of the concrete round pairs `user1` (buyer)
with `user2` (seller), two distinct participants. -/
theorem spec_C9_witness :
    users.Nodup ∧ w9trade.buyOrder.user ≠ w9trade.sellOrder.user :=
  ⟨by decide,
    spec_C9 1 users (fun _ => 60) oneBuyRand (fun _ => none) (by decide)
      w9trade (by decide)⟩

/-- C10: the per-round success rate divides by the matched-trade count with
no zero guard, and a matched count of zero is reachable: with every initial
reputation at 50 (inside the configured range) and every eligible user
drawing BUY, the round matches zero trades and the success-rate quotient is
not a well-defined number (`none`, modelling the unguarded float division's
NaN). -/
theorem spec_C10 :
    initialRepOK (fun _ => 50) ∧
    (runRound 1 users (fun _ => 50) allBuyRand (fun _ => none)).matchCount = 0 ∧
    successRatePct (runRound 1 users (fun _ => 50) allBuyRand (fun _ => none)) = none :=
  ⟨fun _ _ => ⟨by norm_num, by norm_num⟩, by decide, by decide⟩

end RepuTrade
